import Mathlib

/-!
Verification development for the circom witness-calculator runtime
(`src/c/calcwit.cpp`).  The embedding below translates the data model and the
operations of `Circom_CalcWit` into pure Lean definitions:

* the per-component open-addressed symbol table and its four accessors
  (`getSignalOffset`, `getSignalSizes`, `getSubComponentOffset`,
  `getSubComponentSizes`);
* the mutable calculator state (`signalValues`, the sanity-mode
  `signalAssigned` mask, `inputSignalsToTrigger`) and the operations
  `setSignal`, `getSignal`, `finished`, `reset`, `join`, together with the
  constructor.

Field elements are modelled as `Nat` values (the mpz contents); the opaque
per-component functions `fn` are not modelled — a trigger of component `c` is
recorded as an event, and the calls the triggered function would make appear
as later operations of a trace.  Blocking (`getSignal` on a threaded
producer, `join`) is modelled by explicit enabling conditions on the state.
Out-of-bounds array reads of the C code are modelled by explicit
`oob` / `outOfBounds` results.
-/

/-- One slot of a component's open-addressed hash table: a `{hash, pos}` pair.
A stored hash of `0` marks an empty slot. -/
structure Circom_HashEntry where
  hash : Nat
  pos : Nat
deriving DecidableEq

/-- The entry type tag (`_typeSignal` / `_typeComponent` in the source). -/
inductive SType where
  | signal
  | component
deriving DecidableEq

/-- A symbol-table entry: a type tag, a base offset and an opaque shape
descriptor (`Circom_Sizes`). -/
structure Circom_Entry where
  type : SType
  offset : Int
  sizes : List Int
deriving DecidableEq

/-- Static per-component data.  The opaque function pointer `fn` is not
modelled; `triggerComponent` is represented by trigger events instead. -/
structure Circom_Component where
  inputSignals : Int
  newThread : Bool
  hashTable : List Circom_HashEntry
  entries : List Circom_Entry
deriving DecidableEq

/-- The immutable circuit description handed to the calculator. -/
structure Circom_Circuit where
  P : Nat
  NSignals : Nat
  components : List Circom_Component
  mapIsInput : List Bool
deriving DecidableEq

/-- The mutable state of `Circom_CalcWit`: the signal store, the sanity-mode
assigned mask and the per-component remaining-input counters. -/
structure Circom_CalcWit where
  signalValues : List Nat
  signalAssigned : List Bool
  inputSignalsToTrigger : List Int
deriving DecidableEq

/-- Errors raised by the symbol-table accessors.  `notFound` carries the
looked-up hash (the source throws `"hash not found: " + int_to_hex(hash)`),
`invalidType` is the `"invalid type"` error, and `outOfBounds` marks an
out-of-bounds array read of the C code (undefined behavior there). -/
inductive SymbolError where
  | notFound (hash : Nat)
  | invalidType
  | outOfBounds
deriving DecidableEq

/-- Sanity-mode (SANITY_CHECK) failures: the `"Signal assigned twice"` and
`"Accessing a not assigned signal"` assertions. -/
inductive SanityError where
  | doubleAssignment (sIdx : Nat)
  | readUnassigned (sIdx : Nat)
deriving DecidableEq

/-- Result of the probe loop: the index of the slot whose stored hash matched,
a not-found stop at an empty slot, or an out-of-bounds read. -/
inductive ProbeResult where
  | found (hIdx : Nat)
  | notFound
  | oob
deriving DecidableEq

/-- The probe loop of the four accessors, fuel-indexed:
`for (hIdx = start; hash != hashTable[hIdx].hash; hIdx++) { if (!hashTable[hIdx].hash) throw; }`.
The loop exits with `found` on a matching stored hash, raises `notFound` at a
zero stored hash, and otherwise advances to the next slot.  Reading past the
end of the table is `oob`. -/
def probeAux (tbl : List Circom_HashEntry) (h : Nat) : Nat → Nat → ProbeResult
  | 0, _ => .oob
  | fuel + 1, i =>
    match tbl[i]? with
    | none => .oob
    | some e =>
      if e.hash = h then .found i
      else if e.hash = 0 then .notFound
      else probeAux tbl h fuel (i + 1)

/-- The probe loop started at index `s`; the fuel `tbl.length - s` is exactly
the number of slots from `s` to the end of the table, so `oob` is returned
precisely when the C loop would read past the table's end. -/
def probeFrom (tbl : List Circom_HashEntry) (h : Nat) (s : Nat) : ProbeResult :=
  probeAux tbl h (tbl.length - s) s

/-- The stored hash of slot `j`, when slot `j` exists. -/
def slotHash (tbl : List Circom_HashEntry) (j : Nat) : Option Nat :=
  (tbl[j]?).map Circom_HashEntry.hash

/-- Slot `j` neither matches `h` nor is empty: the probe loop steps past it. -/
def NoStop (tbl : List Circom_HashEntry) (h : Nat) (j : Nat) : Prop :=
  ∃ x, slotHash tbl j = some x ∧ x ≠ h ∧ x ≠ 0

/-- Declarative description of a successful probe from `s`: slot `k` stores
hash `h` and every slot strictly between `s` and `k` is a non-matching,
non-empty slot. -/
def ProbeFound (tbl : List Circom_HashEntry) (h s k : Nat) : Prop :=
  s ≤ k ∧ slotHash tbl k = some h ∧ ∀ j, s ≤ j → j < k → NoStop tbl h j

/-- Declarative description of a failed probe from `s`: some slot `k ≥ s` is
empty, every slot before it (from `s`) is non-matching and non-empty, and the
key itself is nonzero (a zero key would match the empty slot instead). -/
def ProbeMissed (tbl : List Circom_HashEntry) (h s : Nat) : Prop :=
  h ≠ 0 ∧ ∃ k, s ≤ k ∧ slotHash tbl k = some 0 ∧ ∀ j, s ≤ j → j < k → NoStop tbl h j

/-- Common body of `getSignalOffset` / `getSubComponentOffset`: probe from
`hash & 0xFF`, read `hashTable[hIdx].pos`, check the entry's type against the
expected tag, and return the entry's `offset`.  The four source functions are
textually identical up to the expected tag and the projection returned. -/
def lookupOffset (tbl : List Circom_HashEntry) (entries : List Circom_Entry)
    (expected : SType) (h : Nat) : Except SymbolError Int :=
  match probeFrom tbl h (h &&& 255) with
  | .oob => .error .outOfBounds
  | .notFound => .error (.notFound h)
  | .found i =>
    match tbl[i]? with
    | none => .error .outOfBounds
    | some he =>
      match entries[he.pos]? with
      | none => .error .outOfBounds
      | some e => if e.type ≠ expected then .error .invalidType else .ok e.offset

/-- Common body of `getSignalSizes` / `getSubComponentSizes`: same probe and
type check as `lookupOffset`, returning the entry's `sizes` descriptor. -/
def lookupSizes (tbl : List Circom_HashEntry) (entries : List Circom_Entry)
    (expected : SType) (h : Nat) : Except SymbolError (List Int) :=
  match probeFrom tbl h (h &&& 255) with
  | .oob => .error .outOfBounds
  | .notFound => .error (.notFound h)
  | .found i =>
    match tbl[i]? with
    | none => .error .outOfBounds
    | some he =>
      match entries[he.pos]? with
      | none => .error .outOfBounds
      | some e => if e.type ≠ expected then .error .invalidType else .ok e.sizes

/-- Embedding of `Circom_CalcWit::getSignalOffset` (calcwit.cpp:107-117). -/
def getSignalOffset (circ : Circom_Circuit) (cIdx : Nat) (h : Nat) :
    Except SymbolError Int :=
  match circ.components[cIdx]? with
  | none => .error .outOfBounds
  | some comp => lookupOffset comp.hashTable comp.entries .signal h

/-- Embedding of `Circom_CalcWit::getSignalSizes` (calcwit.cpp:119-129). -/
def getSignalSizes (circ : Circom_Circuit) (cIdx : Nat) (h : Nat) :
    Except SymbolError (List Int) :=
  match circ.components[cIdx]? with
  | none => .error .outOfBounds
  | some comp => lookupSizes comp.hashTable comp.entries .signal h

/-- Embedding of `Circom_CalcWit::getSubComponentOffset` (calcwit.cpp:82-92). -/
def getSubComponentOffset (circ : Circom_Circuit) (cIdx : Nat) (h : Nat) :
    Except SymbolError Int :=
  match circ.components[cIdx]? with
  | none => .error .outOfBounds
  | some comp => lookupOffset comp.hashTable comp.entries .component h

/-- Embedding of `Circom_CalcWit::getSubComponentSizes` (calcwit.cpp:95-105). -/
def getSubComponentSizes (circ : Circom_Circuit) (cIdx : Nat) (h : Nat) :
    Except SymbolError (List Int) :=
  match circ.components[cIdx]? with
  | none => .error .outOfBounds
  | some comp => lookupSizes comp.hashTable comp.entries .component h

/-- Modelled from the spec: the wrap-around probe that claim C2 describes.
The spec's words — "Open-addressing lookup wraps correctly past index 255" —
ask the probe index to wrap past index 255 back into the table, so here the
slot read at step `i` is `i % 256`.  The source loop has no such wrap; this
definition exists only to be compared with `probeFrom`. -/
def probeFromWrap (tbl : List Circom_HashEntry) (h : Nat) : Nat → Nat → ProbeResult
  | 0, _ => .oob
  | fuel + 1, i =>
    match tbl[i % 256]? with
    | none => .oob
    | some e =>
      if e.hash = h then .found (i % 256)
      else if e.hash = 0 then .notFound
      else probeFromWrap tbl h fuel (i + 1)

/-- Value of signal `s` (contents of `signalValues[sIdx]`). -/
def valueAt (st : Circom_CalcWit) (s : Nat) : Nat :=
  st.signalValues.getD s 0

/-- Remaining-input counter of component `c` (`inputSignalsToTrigger[cIdx]`). -/
def pendingAt (st : Circom_CalcWit) (c : Nat) : Int :=
  st.inputSignalsToTrigger.getD c 0

/-- Sanity-mode assigned bit of signal `s` (`signalAssigned[sIdx]`). -/
def assignedAt (st : Circom_CalcWit) (s : Nat) : Bool :=
  st.signalAssigned.getD s false

/-- Embedding of `BITMAP_ISSET(circuit->mapIsInput, sIdx)`. -/
def mapIsInputAt (circ : Circom_Circuit) (s : Nat) : Bool :=
  circ.mapIsInput.getD s false

/-- Embedding of `circuit->components[cIdx].newThread`. -/
def newThreadAt (circ : Circom_Circuit) (c : Nat) : Bool :=
  match circ.components[c]? with
  | some comp => comp.newThread
  | none => false

/-- Embedding of `circuit->components[cIdx].inputSignals`. -/
def inputSignalsAt (circ : Circom_Circuit) (c : Nat) : Int :=
  match circ.components[c]? with
  | some comp => comp.inputSignals
  | none => 0

/-- Embedding of `Circom_CalcWit::setSignal` (calcwit.cpp:175-199).  In sanity mode a
second assignment of the same signal aborts (`doubleAssignment`) before
anything is stored.  Otherwise the value is stored, and when the signal's
`mapIsInput` bit is set and the owning component's counter is positive the
counter is decremented; on reaching zero the component is triggered — the
returned list holds the triggered component (the opaque `fn` is not run
here). -/
def setSignal (sanity : Bool) (circ : Circom_Circuit) (cc c s : Nat) (v : Nat)
    (st : Circom_CalcWit) : Except SanityError (List Nat × Circom_CalcWit) :=
  if sanity && assignedAt st s then
    .error (.doubleAssignment s)
  else
    let st1 : Circom_CalcWit :=
      { signalValues := st.signalValues.set s v
        signalAssigned := if sanity then st.signalAssigned.set s true else st.signalAssigned
        inputSignalsToTrigger := st.inputSignalsToTrigger }
    if mapIsInputAt circ s then
      if pendingAt st1 c > 0 then
        let st2 : Circom_CalcWit :=
          { st1 with inputSignalsToTrigger := st1.inputSignalsToTrigger.set c (pendingAt st1 c - 1) }
        if pendingAt st1 c - 1 = 0 then .ok ([c], st2) else .ok ([], st2)
      else .ok ([], st1)
    else .ok ([], st1)

/-- The value-copy half of `Circom_CalcWit::getSignal` (calcwit.cpp:152-158):
the sanity-mode read-before-write check followed by `mpz_set(*value,
signalValues[sIdx])`. -/
def getSignalValue (sanity : Bool) (st : Circom_CalcWit) (s : Nat) :
    Except SanityError Nat :=
  if sanity && !(assignedAt st s) then .error (.readUnassigned s)
  else .ok (valueAt st s)

/-- The wait condition of `Circom_CalcWit::getSignal` (calcwit.cpp:144-151):
`if (components[cIdx].newThread && currentComponentIdx != cIdx) { while
(inputSignalsToTrigger[cIdx] != -1) wait; }`.  `true` means the caller is
inside the wait loop in state `st`. -/
def getSignalWaits (circ : Circom_Circuit) (cc c : Nat) (st : Circom_CalcWit) : Bool :=
  if newThreadAt circ c && (cc != c) then pendingAt st c != -1
  else false

/-- A completed `getSignal(currentComponentIdx, cIdx, sIdx)` call in release
mode: the wait loop has been passed in state `st` and the value copied out is
`signalValues[sIdx]` of that state. -/
def GetSignalReturns (circ : Circom_Circuit) (cc c s : Nat) (st : Circom_CalcWit)
    (v : Nat) : Prop :=
  getSignalWaits circ cc c st = false ∧ v = valueAt st s

/-- Embedding of `Circom_CalcWit::finished` (calcwit.cpp:166-173): store `-1` into
`inputSignalsToTrigger[cIdx]` (and broadcast on the condition variable). -/
def finished (st : Circom_CalcWit) (c : Nat) : Circom_CalcWit :=
  { st with inputSignalsToTrigger := st.inputSignalsToTrigger.set c (-1) }

/-- The sanity-mode mask-clearing loop of `Circom_CalcWit::reset`
(calcwit.cpp:72): `for (int i=1; i<n; i++) signalAssigned[i] = false` —
note the loop bound `n` is the circuit's `NComponents`, not `NSignals`. -/
def clearAssignedRange (mask : List Bool) (n : Nat) : List Bool :=
  (List.range' 1 (n - 1)).foldl (fun m i => m.set i false) mask

/-- Embedding of `Circom_CalcWit::reset` (calcwit.cpp:69-79): clear the sanity mask (with
the source's `NComponents` bound), restore every counter to the component's
`inputSignals`, and trigger the components whose counter is zero.  The first
result component lists the triggered component indices in loop order. -/
def reset (sanity : Bool) (circ : Circom_Circuit) (st : Circom_CalcWit) :
    List Nat × Circom_CalcWit :=
  let mask := if sanity then clearAssignedRange st.signalAssigned circ.components.length
              else st.signalAssigned
  let pend := circ.components.map (fun comp => comp.inputSignals)
  let fired := (List.range circ.components.length).filter
      (fun i => inputSignalsAt circ i == 0)
  (fired,
    { signalValues := st.signalValues
      signalAssigned := mask
      inputSignalsToTrigger := pend })

/-- The constructor `Circom_CalcWit::Circom_CalcWit` (calcwit.cpp:13-38):
`signalValues[0] = 1`, the remaining signals are initialized to `0`
(`mpz_init2`), sanity mode marks signal 0 assigned while the rest of the
freshly allocated mask is indeterminate (`junkMask`), and `reset()` runs at
the end.  The triggered components of that reset are returned alongside the
state. -/
def initState (sanity : Bool) (circ : Circom_Circuit) (junkMask : List Bool) :
    List Nat × Circom_CalcWit :=
  let st0 : Circom_CalcWit :=
    { signalValues := 1 :: List.replicate (circ.NSignals - 1) 0
      signalAssigned := if sanity then junkMask.set 0 true else junkMask
      inputSignalsToTrigger := List.replicate circ.components.length 0 }
  reset sanity circ st0

/-- A calculator API call, for traces of operations.  A triggered component's
`fn` is opaque; the calls it performs appear as later trace elements. -/
inductive Op where
  | setOp (cc c s v : Nat)
  | getOp (cc c s : Nat)
  | finOp (c : Nat)
  | resetOp
  | joinOp
deriving DecidableEq

/-- State effect of one operation.  `getSignal` and `join` do not modify the
state; a sanity-mode abort leaves the state unchanged (the process dies before
any write). -/
def applyOp (sanity : Bool) (circ : Circom_Circuit) (st : Circom_CalcWit) :
    Op → Circom_CalcWit
  | .setOp cc c s v =>
    match setSignal sanity circ cc c s v st with
    | .ok r => r.2
    | .error _ => st
  | .getOp _ _ _ => st
  | .finOp c => finished st c
  | .resetOp => (reset sanity circ st).2
  | .joinOp => st

/-- State after a trace of operations. -/
def applyOps (sanity : Bool) (circ : Circom_Circuit) (st : Circom_CalcWit)
    (ops : List Op) : Circom_CalcWit :=
  ops.foldl (fun t op => applyOp sanity circ t op) st

/-- The scan of `Circom_CalcWit::join` (calcwit.cpp:236-247): visit components
in increasing index order and stop at the first one whose counter is not `-1`
(the loop would block there).  `none` means the loop runs to completion. -/
def joinScan (st : Circom_CalcWit) : Nat → Nat → Option Nat
  | _, 0 => none
  | i, fuel + 1 =>
    if pendingAt st i = -1 then joinScan st (i + 1) fuel else some i

/-- The component index `join()` is blocked on in state `st`, if any. -/
def joinBlockedAt (circ : Circom_Circuit) (st : Circom_CalcWit) : Option Nat :=
  joinScan st 0 circ.components.length

/-- Predicate: `join()` can return in state `st` (no component blocks the scan). -/
def joinCanReturn (circ : Circom_Circuit) (st : Circom_CalcWit) : Prop :=
  joinBlockedAt circ st = none

/-- Hash table for the C2 counterexample: probe start 255 (key 255), slot 255
and the single overflow slot 256 both occupied by other keys, and the key's
own slot sitting at index 0 — reachable only by wrapping. -/
def tblNoWrap : List Circom_HashEntry :=
  ⟨255, 1⟩ :: (List.replicate 254 ⟨0, 0⟩ ++ [⟨7, 0⟩, ⟨9, 2⟩])

/-- Variant with a zero overflow slot at index 256: the linear probe stops
there with `notFound` even though the key is stored at (wrapped) index 0. -/
def tblOverflowZero : List Circom_HashEntry :=
  ⟨255, 1⟩ :: (List.replicate 254 ⟨0, 0⟩ ++ [⟨7, 0⟩, ⟨0, 0⟩])

/-- Small circuit for the C3 counterexample and several witnesses: two
signals, one component with one input signal (signal 1). -/
def circTwoSig : Circom_Circuit :=
  { P := 7
    NSignals := 2
    components := [⟨1, false, [], []⟩]
    mapIsInput := [false, true] }

/-- Circuit for the C5 failing input: 4 signals but only 2 components, so the
reset mask-clearing loop `for (i=1; i<NComponents; i++)` touches index 1
only. -/
def circC5 : Circom_Circuit :=
  { P := 7
    NSignals := 4
    components := [⟨1, false, [], []⟩, ⟨2, false, [], []⟩]
    mapIsInput := [false, true, true, false] }

/-- Pre-reset state for the C5 failing input: every signal marked assigned. -/
def stC5 : Circom_CalcWit :=
  { signalValues := [1, 5, 6, 7]
    signalAssigned := [true, true, true, true]
    inputSignalsToTrigger := [0, 0] }

/-- Component with a one-slot table holding key 5 at its probe start 5, used
by the C1 witness. -/
def compW1 : Circom_Component :=
  { inputSignals := 0
    newThread := false
    hashTable := List.replicate 5 ⟨0, 0⟩ ++ [⟨5, 0⟩]
    entries := [⟨.signal, 7, [2]⟩] }

/-- One-component circuit wrapping `compW1`, used by the C1 witness. -/
def circW1 : Circom_Circuit :=
  { P := 7
    NSignals := 2
    components := [compW1]
    mapIsInput := [false, false] }

/-- One-slot table whose only slot matches key 256 at probe start 0, used by
the C2 amended-claim witness. -/
def tblW2 : List Circom_HashEntry :=
  [⟨256, 0⟩]

/-- State used by the C4 witness: signal 1 unset, one pending input. -/
def stW4 : Circom_CalcWit :=
  { signalValues := [1, 0]
    signalAssigned := [true, false]
    inputSignalsToTrigger := [1] }

/-- One-component circuit with a threaded component, used by the C6 and C7
witnesses. -/
def circW7 : Circom_Circuit :=
  { P := 7
    NSignals := 2
    components := [⟨1, true, [], []⟩]
    mapIsInput := [false, true] }

/-- State with component 0 still pending, used by the C7 witness. -/
def stW7 : Circom_CalcWit :=
  { signalValues := [1, 3]
    signalAssigned := [true, true]
    inputSignalsToTrigger := [1] }

/-- State with component 0 finished, used by the C6 and C8 witnesses. -/
def stW8 : Circom_CalcWit :=
  { signalValues := [1, 3]
    signalAssigned := [true, true]
    inputSignalsToTrigger := [-1] }

/-- State used by the C10 witness: component 0 has not even run. -/
def stW10 : Circom_CalcWit :=
  { signalValues := [1, 0, 4]
    signalAssigned := [true, false, true]
    inputSignalsToTrigger := [1, 0] }

/-- Claim-level characterization of an offset accessor result `res` for key
`h` against table `tbl` / entry array `entries` with expected tag `expected`:
an `ok` offset is returned exactly when the linear probe from `h &&& 0xFF`
reaches a matching slot whose entry has the expected type; `notFound`
(carrying the key) is raised exactly when the probe reaches an empty slot; the
type-mismatch error is raised exactly when the matching slot's entry has the
wrong type. -/
def OffsetLookupOk (tbl : List Circom_HashEntry) (entries : List Circom_Entry)
    (expected : SType) (h : Nat) (res : Except SymbolError Int) : Prop :=
  (∀ off, res = .ok off ↔
      ∃ k he e, ProbeFound tbl h (h &&& 255) k ∧ tbl[k]? = some he ∧
        entries[he.pos]? = some e ∧ e.type = expected ∧ e.offset = off) ∧
  (∀ h2, res = .error (.notFound h2) ↔ (h2 = h ∧ ProbeMissed tbl h (h &&& 255))) ∧
  (res = .error .invalidType ↔
      ∃ k he e, ProbeFound tbl h (h &&& 255) k ∧ tbl[k]? = some he ∧
        entries[he.pos]? = some e ∧ e.type ≠ expected)

/-- Same characterization for the `sizes` accessors. -/
def SizesLookupOk (tbl : List Circom_HashEntry) (entries : List Circom_Entry)
    (expected : SType) (h : Nat) (res : Except SymbolError (List Int)) : Prop :=
  (∀ szs, res = .ok szs ↔
      ∃ k he e, ProbeFound tbl h (h &&& 255) k ∧ tbl[k]? = some he ∧
        entries[he.pos]? = some e ∧ e.type = expected ∧ e.sizes = szs) ∧
  (∀ h2, res = .error (.notFound h2) ↔ (h2 = h ∧ ProbeMissed tbl h (h &&& 255))) ∧
  (res = .error .invalidType ↔
      ∃ k he e, ProbeFound tbl h (h &&& 255) k ∧ tbl[k]? = some he ∧
        entries[he.pos]? = some e ∧ e.type ≠ expected)

/-! ### Generic list helpers -/

theorem getD_set_self {α : Type} (l : List α) (i : Nat) (a d : α) (h : i < l.length) :
    (l.set i a).getD i d = a := by
  induction l generalizing i with
  | nil => simp at h
  | cons b t ih =>
    cases i with
    | zero => rfl
    | succ j =>
      simp only [List.set, List.getD, List.get?]
      have := ih j (by simpa using h)
      simpa [List.getD] using this

theorem getD_set_ne {α : Type} (l : List α) (i j : Nat) (a d : α) (h : i ≠ j) :
    (l.set i a).getD j d = l.getD j d := by
  induction l generalizing i j with
  | nil => rfl
  | cons b t ih =>
    cases i with
    | zero =>
      cases j with
      | zero => exact absurd rfl h
      | succ k => rfl
    | succ m =>
      cases j with
      | zero => rfl
      | succ k =>
        simp only [List.set, List.getD, List.get?]
        have := ih m k (fun hmk => h (by simp [hmk]))
        simpa [List.getD] using this

theorem getD_of_length_le {α : Type} (l : List α) (i : Nat) (d : α) (h : l.length ≤ i) :
    l.getD i d = d := by
  induction l generalizing i with
  | nil => rfl
  | cons b t ih =>
    cases i with
    | zero => simp at h
    | succ j =>
      simp only [List.length_cons] at h
      have := ih j (by omega)
      simpa [List.getD] using this

theorem get?_replicate_of_lt {α : Type} (a : α) :
    ∀ n m, m < n → (List.replicate n a)[m]? = some a := by
  intro n
  induction n with
  | zero => intro m hm; omega
  | succ k ih =>
    intro m hm
    cases m with
    | zero => simp [List.replicate]
    | succ m' =>
      have := ih m' (by omega)
      simpa [List.replicate] using this

theorem mem_range'_lower : ∀ n s i, i ∈ List.range' s n → s ≤ i := by
  intro n
  induction n with
  | zero => intro s i hi; simp [List.range'] at hi
  | succ k ih =>
    intro s i hi
    simp only [List.range'] at hi
    rcases List.mem_cons.mp hi with h | h
    · omega
    · have := ih (s + 1) i h
      omega

theorem foldl_set_getD_ne {α : Type} (xs : List Nat) (l : List α) (a d : α) (j : Nat)
    (h : ∀ i ∈ xs, i ≠ j) :
    (xs.foldl (fun m i => m.set i a) l).getD j d = l.getD j d := by
  induction xs generalizing l with
  | nil => rfl
  | cons x t ih =>
    have hx : x ≠ j := h x (List.mem_cons_self x t)
    have ht : ∀ i ∈ t, i ≠ j := fun i hi => h i (List.mem_cons_of_mem x hi)
    calc ((x :: t).foldl (fun m i => m.set i a) l).getD j d
        = (t.foldl (fun m i => m.set i a) (l.set x a)).getD j d := rfl
      _ = (l.set x a).getD j d := ih (l.set x a) ht
      _ = l.getD j d := getD_set_ne l x j a d hx

theorem getD_ne_default_lt {α : Type} (l : List α) (i : Nat) (d : α) (h : l.getD i d ≠ d) :
    i < l.length := by
  by_contra hle
  exact h (getD_of_length_le l i d (by omega))

/-! ### Probe loop characterization -/

theorem probeAux_found_sound (tbl : List Circom_HashEntry) (h : Nat) :
    ∀ fuel i k, probeAux tbl h fuel i = .found k →
      i ≤ k ∧ slotHash tbl k = some h ∧ ∀ j, i ≤ j → j < k → NoStop tbl h j := by
  intro fuel
  induction fuel with
  | zero => intro i k hp; simp [probeAux] at hp
  | succ f ih =>
    intro i k hp
    cases hg : tbl[i]? with
    | none => simp [probeAux, hg] at hp
    | some e =>
      simp only [probeAux, hg] at hp
      by_cases h1 : e.hash = h
      · rw [if_pos h1] at hp
        have hk : i = k := by simpa using hp
        subst hk
        refine ⟨Nat.le_refl _, by simp [slotHash, hg, h1], ?_⟩
        intro j hj1 hj2
        omega
      · rw [if_neg h1] at hp
        by_cases h2 : e.hash = 0
        · rw [if_pos h2] at hp; simp at hp
        · rw [if_neg h2] at hp
          obtain ⟨hik, hsl, hall⟩ := ih (i + 1) k hp
          refine ⟨by omega, hsl, ?_⟩
          intro j hj1 hj2
          rcases Nat.eq_or_lt_of_le hj1 with heq | hlt
          · exact heq ▸ ⟨e.hash, by simp [slotHash, hg], h1, h2⟩
          · exact hall j hlt hj2

theorem probeAux_notFound_sound (tbl : List Circom_HashEntry) (h : Nat) :
    ∀ fuel i, probeAux tbl h fuel i = .notFound →
      h ≠ 0 ∧ ∃ k, i ≤ k ∧ slotHash tbl k = some 0 ∧
        ∀ j, i ≤ j → j < k → NoStop tbl h j := by
  intro fuel
  induction fuel with
  | zero => intro i hp; simp [probeAux] at hp
  | succ f ih =>
    intro i hp
    cases hg : tbl[i]? with
    | none => simp [probeAux, hg] at hp
    | some e =>
      simp only [probeAux, hg] at hp
      by_cases h1 : e.hash = h
      · rw [if_pos h1] at hp; simp at hp
      · rw [if_neg h1] at hp
        by_cases h2 : e.hash = 0
        · refine ⟨fun hh0 => h1 (by rw [h2, hh0]), i, Nat.le_refl _, by simp [slotHash, hg, h2], ?_⟩
          intro j hj1 hj2
          omega
        · rw [if_neg h2] at hp
          obtain ⟨hne, k, hik, hsl, hall⟩ := ih (i + 1) hp
          refine ⟨hne, k, by omega, hsl, ?_⟩
          intro j hj1 hj2
          rcases Nat.eq_or_lt_of_le hj1 with heq | hlt
          · exact heq ▸ ⟨e.hash, by simp [slotHash, hg], h1, h2⟩
          · exact hall j hlt hj2

theorem probeAux_oob_sound (tbl : List Circom_HashEntry) (h : Nat) :
    ∀ fuel i, probeAux tbl h fuel i = .oob →
      ∀ j, i ≤ j → j < i + fuel → j < tbl.length → NoStop tbl h j := by
  intro fuel
  induction fuel with
  | zero => intro i _ j hj1 hj2 _; omega
  | succ f ih =>
    intro i hp j hj1 hj2 hj3
    cases hg : tbl[i]? with
    | none =>
      have := List.getElem?_eq_none_iff.mp hg
      omega
    | some e =>
      simp only [probeAux, hg] at hp
      by_cases h1 : e.hash = h
      · rw [if_pos h1] at hp; simp at hp
      · rw [if_neg h1] at hp
        by_cases h2 : e.hash = 0
        · rw [if_pos h2] at hp; simp at hp
        · rw [if_neg h2] at hp
          rcases Nat.eq_or_lt_of_le hj1 with heq | hlt
          · exact heq ▸ ⟨e.hash, by simp [slotHash, hg], h1, h2⟩
          · exact ih (i + 1) hp j hlt (by omega) hj3

theorem probeFrom_found_complete (tbl : List Circom_HashEntry) (h : Nat) :
    ∀ d s k, k - s ≤ d → ProbeFound tbl h s k → probeFrom tbl h s = .found k := by
  intro d
  induction d with
  | zero =>
    intro s k hd hf
    obtain ⟨hsk, hsl, _⟩ := hf
    have hks : k = s := by omega
    subst hks
    obtain ⟨e, hg, he⟩ := Option.map_eq_some'.mp hsl
    have hlt : k < tbl.length := (List.getElem?_eq_some.mp hg).1
    have hfuel : tbl.length - k = (tbl.length - (k + 1)) + 1 := by omega
    rw [probeFrom, hfuel]
    simp [probeAux, hg, he]
  | succ dd ih =>
    intro s k hd hf
    obtain ⟨hsk, hsl, hall⟩ := hf
    rcases Nat.eq_or_lt_of_le hsk with heq | hlt
    · subst heq
      obtain ⟨e, hg, he⟩ := Option.map_eq_some'.mp hsl
      have hltl : s < tbl.length := (List.getElem?_eq_some.mp hg).1
      have hfuel : tbl.length - s = (tbl.length - (s + 1)) + 1 := by omega
      rw [probeFrom, hfuel]
      simp [probeAux, hg, he]
    · obtain ⟨x, hsx, hxh, hx0⟩ := hall s (Nat.le_refl s) hlt
      obtain ⟨e, hg, he⟩ := Option.map_eq_some'.mp hsx
      have hsltl : s < tbl.length := (List.getElem?_eq_some.mp hg).1
      have hfuel : tbl.length - s = (tbl.length - (s + 1)) + 1 := by omega
      have hrec : probeFrom tbl h (s + 1) = .found k :=
        ih (s + 1) k (by omega)
          ⟨by omega, hsl, fun j hj1 hj2 => hall j (by omega) hj2⟩
      rw [probeFrom] at hrec
      rw [probeFrom, hfuel]
      simp only [probeAux, hg]
      rw [if_neg (by rw [he]; exact hxh), if_neg (by rw [he]; exact hx0)]
      exact hrec

theorem probeFrom_missed_complete (tbl : List Circom_HashEntry) (h : Nat) :
    ∀ d s, (∃ k, k - s ≤ d ∧ s ≤ k ∧ slotHash tbl k = some 0 ∧
        (∀ j, s ≤ j → j < k → NoStop tbl h j)) → h ≠ 0 →
      probeFrom tbl h s = .notFound := by
  intro d
  induction d with
  | zero =>
    intro s hex hne
    obtain ⟨k, hd, hsk, hsl, _⟩ := hex
    have hks : k = s := by omega
    subst hks
    obtain ⟨e, hg, he⟩ := Option.map_eq_some'.mp hsl
    have hlt : k < tbl.length := (List.getElem?_eq_some.mp hg).1
    have hfuel : tbl.length - k = (tbl.length - (k + 1)) + 1 := by omega
    rw [probeFrom, hfuel]
    simp only [probeAux, hg]
    rw [if_neg (by rw [he]; exact fun hh => hne hh.symm), if_pos he]
  | succ dd ih =>
    intro s hex hne
    obtain ⟨k, hd, hsk, hsl, hall⟩ := hex
    rcases Nat.eq_or_lt_of_le hsk with heq | hlt
    · subst heq
      obtain ⟨e, hg, he⟩ := Option.map_eq_some'.mp hsl
      have hltl : s < tbl.length := (List.getElem?_eq_some.mp hg).1
      have hfuel : tbl.length - s = (tbl.length - (s + 1)) + 1 := by omega
      rw [probeFrom, hfuel]
      simp only [probeAux, hg]
      rw [if_neg (by rw [he]; exact fun hh => hne hh.symm), if_pos he]
    · obtain ⟨x, hsx, hxh, hx0⟩ := hall s (Nat.le_refl s) hlt
      obtain ⟨e, hg, he⟩ := Option.map_eq_some'.mp hsx
      have hsltl : s < tbl.length := (List.getElem?_eq_some.mp hg).1
      have hfuel : tbl.length - s = (tbl.length - (s + 1)) + 1 := by omega
      have hrec : probeFrom tbl h (s + 1) = .notFound :=
        ih (s + 1)
          ⟨k, by omega, by omega, hsl, fun j hj1 hj2 => hall j (by omega) hj2⟩ hne
      rw [probeFrom] at hrec
      rw [probeFrom, hfuel]
      simp only [probeAux, hg]
      rw [if_neg (by rw [he]; exact hxh), if_neg (by rw [he]; exact hx0)]
      exact hrec

theorem probeFrom_found_iff (tbl : List Circom_HashEntry) (h s k : Nat) :
    probeFrom tbl h s = .found k ↔ ProbeFound tbl h s k :=
  ⟨fun hp => probeAux_found_sound tbl h (tbl.length - s) s k hp,
   fun hf => probeFrom_found_complete tbl h (k - s) s k (Nat.le_refl _) hf⟩

theorem probeFrom_notFound_iff (tbl : List Circom_HashEntry) (h s : Nat) :
    probeFrom tbl h s = .notFound ↔ ProbeMissed tbl h s := by
  constructor
  · intro hp
    exact probeAux_notFound_sound tbl h (tbl.length - s) s hp
  · rintro ⟨hne, k, hsk, hsl, hall⟩
    exact probeFrom_missed_complete tbl h (k - s) s ⟨k, Nat.le_refl _, hsk, hsl, hall⟩ hne

theorem probeFrom_oob_sound (tbl : List Circom_HashEntry) (h s : Nat)
    (hp : probeFrom tbl h s = .oob) :
    ∀ j, s ≤ j → j < tbl.length → NoStop tbl h j := by
  intro j hj1 hj2
  exact probeAux_oob_sound tbl h (tbl.length - s) s hp j hj1 (by omega) hj2

theorem probe_found_unique (tbl : List Circom_HashEntry) (h s k k' : Nat)
    (hp : probeFrom tbl h s = .found k) (hf : ProbeFound tbl h s k') : k' = k := by
  have hq := (probeFrom_found_iff tbl h s k').mpr hf
  rw [hp] at hq
  exact (ProbeResult.found.inj hq).symm

theorem probe_found_not_missed (tbl : List Circom_HashEntry) (h s k : Nat)
    (hp : probeFrom tbl h s = .found k) (hm : ProbeMissed tbl h s) : False := by
  have hq := (probeFrom_notFound_iff tbl h s).mpr hm
  rw [hp] at hq
  simp at hq

theorem lookupOffset_spec (tbl : List Circom_HashEntry) (entries : List Circom_Entry)
    (expected : SType) (h : Nat) :
    OffsetLookupOk tbl entries expected h (lookupOffset tbl entries expected h) := by
  unfold OffsetLookupOk lookupOffset
  cases hp : probeFrom tbl h (h &&& 255) with
  | oob =>
    simp only [hp]
    refine ⟨?_, ?_, ?_⟩
    · intro off
      constructor
      · intro hr; simp at hr
      · rintro ⟨k, he, e, hf, -, -, -, -⟩
        have := (probeFrom_found_iff tbl h (h &&& 255) k).mpr hf
        rw [hp] at this
        simp at this
    · intro h2
      constructor
      · intro hr; simp at hr
      · rintro ⟨-, hm⟩
        have := (probeFrom_notFound_iff tbl h (h &&& 255)).mpr hm
        rw [hp] at this
        simp at this
    · constructor
      · intro hr; simp at hr
      · rintro ⟨k, he, e, hf, -, -, -⟩
        have := (probeFrom_found_iff tbl h (h &&& 255) k).mpr hf
        rw [hp] at this
        simp at this
  | notFound =>
    simp only [hp]
    have hm : ProbeMissed tbl h (h &&& 255) := (probeFrom_notFound_iff tbl h (h &&& 255)).mp hp
    refine ⟨?_, ?_, ?_⟩
    · intro off
      constructor
      · intro hr; simp at hr
      · rintro ⟨k, he, e, hf, -, -, -, -⟩
        exact absurd hm (fun hmm =>
          probe_found_not_missed tbl h (h &&& 255) k
            ((probeFrom_found_iff tbl h (h &&& 255) k).mpr hf) hmm)
    · intro h2
      constructor
      · intro hr
        have : h = h2 := by
          have := Except.error.inj hr
          exact SymbolError.notFound.inj this
        exact ⟨this.symm, hm⟩
      · rintro ⟨rfl, -⟩
        rfl
    · constructor
      · intro hr
        have := Except.error.inj hr
        simp at this
      · rintro ⟨k, he, e, hf, -, -, -⟩
        exact absurd hm (fun hmm =>
          probe_found_not_missed tbl h (h &&& 255) k
            ((probeFrom_found_iff tbl h (h &&& 255) k).mpr hf) hmm)
  | found k =>
    have hfk : ProbeFound tbl h (h &&& 255) k := (probeFrom_found_iff tbl h (h &&& 255) k).mp hp
    have hsl := hfk.2.1
    simp only [slotHash] at hsl
    obtain ⟨heK, hgK, hhK⟩ := Option.map_eq_some'.mp hsl
    simp only [hp, hgK]
    cases hent : entries[heK.pos]? with
    | none =>
      simp only [hent]
      refine ⟨?_, ?_, ?_⟩
      · intro off
        constructor
        · intro hr; simp at hr
        · rintro ⟨k', he', e', hf', hg', hent', -, -⟩
          have hkk : k' = k := probe_found_unique tbl h (h &&& 255) k k' hp hf'
          subst hkk
          rw [hgK] at hg'
          have hee : heK = he' := Option.some.inj hg'
          rw [← hee, hent] at hent'
          simp at hent'
      · intro h2
        constructor
        · intro hr; simp at hr
        · rintro ⟨-, hm⟩
          exact absurd hm (fun hmm => probe_found_not_missed tbl h (h &&& 255) k hp hmm)
      · constructor
        · intro hr
          have := Except.error.inj hr
          simp at this
        · rintro ⟨k', he', e', hf', hg', hent', -⟩
          have hkk : k' = k := probe_found_unique tbl h (h &&& 255) k k' hp hf'
          subst hkk
          rw [hgK] at hg'
          have hee : heK = he' := Option.some.inj hg'
          rw [← hee, hent] at hent'
          simp at hent'
    | some e =>
      simp only [hent]
      by_cases ht : e.type = expected
      · rw [if_neg (by simp [ht])]
        refine ⟨?_, ?_, ?_⟩
        · intro off
          constructor
          · intro hr
            have : e.offset = off := Except.ok.inj hr
            exact ⟨k, heK, e, hfk, hgK, hent, ht, this⟩
          · rintro ⟨k', he', e', hf', hg', hent', -, hoff⟩
            have hkk : k' = k := probe_found_unique tbl h (h &&& 255) k k' hp hf'
            subst hkk
            rw [hgK] at hg'
            have hee : heK = he' := Option.some.inj hg'
            rw [← hee, hent] at hent'
            have hE : e = e' := Option.some.inj hent'
            rw [← hE] at hoff
            rw [hoff]
        · intro h2
          constructor
          · intro hr; simp at hr
          · rintro ⟨-, hm⟩
            exact absurd hm (fun hmm => probe_found_not_missed tbl h (h &&& 255) k hp hmm)
        · constructor
          · intro hr; simp at hr
          · rintro ⟨k', he', e', hf', hg', hent', hne⟩
            have hkk : k' = k := probe_found_unique tbl h (h &&& 255) k k' hp hf'
            subst hkk
            rw [hgK] at hg'
            have hee : heK = he' := Option.some.inj hg'
            rw [← hee, hent] at hent'
            have hE : e = e' := Option.some.inj hent'
            exact absurd (hE ▸ ht) hne
      · rw [if_pos (by simp [ht])]
        refine ⟨?_, ?_, ?_⟩
        · intro off
          constructor
          · intro hr; simp at hr
          · rintro ⟨k', he', e', hf', hg', hent', hty, -⟩
            have hkk : k' = k := probe_found_unique tbl h (h &&& 255) k k' hp hf'
            subst hkk
            rw [hgK] at hg'
            have hee : heK = he' := Option.some.inj hg'
            rw [← hee, hent] at hent'
            have hE : e = e' := Option.some.inj hent'
            exact absurd (hE ▸ hty) ht
        · intro h2
          constructor
          · intro hr
            have := Except.error.inj hr
            simp at this
          · rintro ⟨-, hm⟩
            exact absurd hm (fun hmm => probe_found_not_missed tbl h (h &&& 255) k hp hmm)
        · exact ⟨fun _ => ⟨k, heK, e, hfk, hgK, hent, ht⟩, fun _ => rfl⟩

theorem lookupSizes_spec (tbl : List Circom_HashEntry) (entries : List Circom_Entry)
    (expected : SType) (h : Nat) :
    SizesLookupOk tbl entries expected h (lookupSizes tbl entries expected h) := by
  unfold SizesLookupOk lookupSizes
  cases hp : probeFrom tbl h (h &&& 255) with
  | oob =>
    simp only [hp]
    refine ⟨?_, ?_, ?_⟩
    · intro szs
      constructor
      · intro hr; simp at hr
      · rintro ⟨k, he, e, hf, -, -, -, -⟩
        have := (probeFrom_found_iff tbl h (h &&& 255) k).mpr hf
        rw [hp] at this
        simp at this
    · intro h2
      constructor
      · intro hr; simp at hr
      · rintro ⟨-, hm⟩
        have := (probeFrom_notFound_iff tbl h (h &&& 255)).mpr hm
        rw [hp] at this
        simp at this
    · constructor
      · intro hr; simp at hr
      · rintro ⟨k, he, e, hf, -, -, -⟩
        have := (probeFrom_found_iff tbl h (h &&& 255) k).mpr hf
        rw [hp] at this
        simp at this
  | notFound =>
    simp only [hp]
    have hm : ProbeMissed tbl h (h &&& 255) := (probeFrom_notFound_iff tbl h (h &&& 255)).mp hp
    refine ⟨?_, ?_, ?_⟩
    · intro szs
      constructor
      · intro hr; simp at hr
      · rintro ⟨k, he, e, hf, -, -, -, -⟩
        exact absurd hm (fun hmm =>
          probe_found_not_missed tbl h (h &&& 255) k
            ((probeFrom_found_iff tbl h (h &&& 255) k).mpr hf) hmm)
    · intro h2
      constructor
      · intro hr
        have : h = h2 := by
          have := Except.error.inj hr
          exact SymbolError.notFound.inj this
        exact ⟨this.symm, hm⟩
      · rintro ⟨rfl, -⟩
        rfl
    · constructor
      · intro hr
        have := Except.error.inj hr
        simp at this
      · rintro ⟨k, he, e, hf, -, -, -⟩
        exact absurd hm (fun hmm =>
          probe_found_not_missed tbl h (h &&& 255) k
            ((probeFrom_found_iff tbl h (h &&& 255) k).mpr hf) hmm)
  | found k =>
    have hfk : ProbeFound tbl h (h &&& 255) k := (probeFrom_found_iff tbl h (h &&& 255) k).mp hp
    have hsl := hfk.2.1
    simp only [slotHash] at hsl
    obtain ⟨heK, hgK, hhK⟩ := Option.map_eq_some'.mp hsl
    simp only [hp, hgK]
    cases hent : entries[heK.pos]? with
    | none =>
      simp only [hent]
      refine ⟨?_, ?_, ?_⟩
      · intro szs
        constructor
        · intro hr; simp at hr
        · rintro ⟨k', he', e', hf', hg', hent', -, -⟩
          have hkk : k' = k := probe_found_unique tbl h (h &&& 255) k k' hp hf'
          subst hkk
          rw [hgK] at hg'
          have hee : heK = he' := Option.some.inj hg'
          rw [← hee, hent] at hent'
          simp at hent'
      · intro h2
        constructor
        · intro hr; simp at hr
        · rintro ⟨-, hm⟩
          exact absurd hm (fun hmm => probe_found_not_missed tbl h (h &&& 255) k hp hmm)
      · constructor
        · intro hr
          have := Except.error.inj hr
          simp at this
        · rintro ⟨k', he', e', hf', hg', hent', -⟩
          have hkk : k' = k := probe_found_unique tbl h (h &&& 255) k k' hp hf'
          subst hkk
          rw [hgK] at hg'
          have hee : heK = he' := Option.some.inj hg'
          rw [← hee, hent] at hent'
          simp at hent'
    | some e =>
      simp only [hent]
      by_cases ht : e.type = expected
      · rw [if_neg (by simp [ht])]
        refine ⟨?_, ?_, ?_⟩
        · intro szs
          constructor
          · intro hr
            have : e.sizes = szs := Except.ok.inj hr
            exact ⟨k, heK, e, hfk, hgK, hent, ht, this⟩
          · rintro ⟨k', he', e', hf', hg', hent', -, hszs⟩
            have hkk : k' = k := probe_found_unique tbl h (h &&& 255) k k' hp hf'
            subst hkk
            rw [hgK] at hg'
            have hee : heK = he' := Option.some.inj hg'
            rw [← hee, hent] at hent'
            have hE : e = e' := Option.some.inj hent'
            rw [← hE] at hszs
            rw [hszs]
        · intro h2
          constructor
          · intro hr; simp at hr
          · rintro ⟨-, hm⟩
            exact absurd hm (fun hmm => probe_found_not_missed tbl h (h &&& 255) k hp hmm)
        · constructor
          · intro hr; simp at hr
          · rintro ⟨k', he', e', hf', hg', hent', hne⟩
            have hkk : k' = k := probe_found_unique tbl h (h &&& 255) k k' hp hf'
            subst hkk
            rw [hgK] at hg'
            have hee : heK = he' := Option.some.inj hg'
            rw [← hee, hent] at hent'
            have hE : e = e' := Option.some.inj hent'
            exact absurd (hE ▸ ht) hne
      · rw [if_pos (by simp [ht])]
        refine ⟨?_, ?_, ?_⟩
        · intro szs
          constructor
          · intro hr; simp at hr
          · rintro ⟨k', he', e', hf', hg', hent', hty, -⟩
            have hkk : k' = k := probe_found_unique tbl h (h &&& 255) k k' hp hf'
            subst hkk
            rw [hgK] at hg'
            have hee : heK = he' := Option.some.inj hg'
            rw [← hee, hent] at hent'
            have hE : e = e' := Option.some.inj hent'
            exact absurd (hE ▸ hty) ht
        · intro h2
          constructor
          · intro hr
            have := Except.error.inj hr
            simp at this
          · rintro ⟨-, hm⟩
            exact absurd hm (fun hmm => probe_found_not_missed tbl h (h &&& 255) k hp hmm)
        · exact ⟨fun _ => ⟨k, heK, e, hfk, hgK, hent, ht⟩, fun _ => rfl⟩

/-! ### Claims C1 and C2: symbol-table lookup -/

/-- C1: for every component index `cIdx` and 64-bit name hash, each of the
four accessors probes the component's `hashTable` from `hash & 0xFF` forward
one slot at a time; a slot whose stored hash equals the key yields the
`entries[pos]` record's `offset` (resp. `sizes`), with a type-mismatch error
when that entry's type disagrees with the accessor's expected type
(`Signal` for the `getSignal*` pair, `Component` for the `getSubComponent*`
pair); a slot whose stored hash is zero yields a not-found error carrying the
hash. -/
theorem c1_symbol_lookup (circ : Circom_Circuit) (cIdx : Nat) (comp : Circom_Component)
    (hc : circ.components[cIdx]? = some comp) (h : Nat) :
    OffsetLookupOk comp.hashTable comp.entries .signal h (getSignalOffset circ cIdx h) ∧
    SizesLookupOk comp.hashTable comp.entries .signal h (getSignalSizes circ cIdx h) ∧
    OffsetLookupOk comp.hashTable comp.entries .component h (getSubComponentOffset circ cIdx h) ∧
    SizesLookupOk comp.hashTable comp.entries .component h (getSubComponentSizes circ cIdx h) := by
  unfold getSignalOffset getSignalSizes getSubComponentOffset getSubComponentSizes
  simp only [hc]
  exact ⟨lookupOffset_spec comp.hashTable comp.entries .signal h,
         lookupSizes_spec comp.hashTable comp.entries .signal h,
         lookupOffset_spec comp.hashTable comp.entries .component h,
         lookupSizes_spec comp.hashTable comp.entries .component h⟩

/-- Witness for C1 at the concrete circuit `circW1`, component 0, hash 5. -/
theorem c1_symbol_lookup_witness :
    OffsetLookupOk compW1.hashTable compW1.entries .signal 5 (getSignalOffset circW1 0 5) ∧
    SizesLookupOk compW1.hashTable compW1.entries .signal 5 (getSignalSizes circW1 0 5) ∧
    OffsetLookupOk compW1.hashTable compW1.entries .component 5 (getSubComponentOffset circW1 0 5) ∧
    SizesLookupOk compW1.hashTable compW1.entries .component 5 (getSubComponentSizes circW1 0 5) :=
  c1_symbol_lookup circW1 0 compW1 rfl 5

set_option maxRecDepth 10000 in
/-- C2 counterexample: the source's probe loop never wraps past index 255
back into the table.  On `tblNoWrap` (probe start 255, slots 255 and 256
occupied by other keys, the key stored at index 0) the claim's wrap-around
probe finds the entry at index 0, while the code's linear probe walks off the
table's end — an out-of-bounds read, not a wrapped in-bounds access.  On
`tblOverflowZero` (zero overflow slot) the code stops with not-found and
never reaches the wrapped slot 0 that holds the key. -/
theorem c2_no_wraparound_counterexample :
    probeFrom tblNoWrap 255 (255 &&& 255) = ProbeResult.oob ∧
    probeFromWrap tblNoWrap 255 256 (255 &&& 255) = ProbeResult.found 0 ∧
    slotHash tblNoWrap 0 = some 255 ∧
    tblNoWrap.length = 257 ∧
    probeFrom tblOverflowZero 255 (255 &&& 255) = ProbeResult.notFound ∧
    probeFromWrap tblOverflowZero 255 256 (255 &&& 255) = ProbeResult.found 0 ∧
    slotHash tblOverflowZero 0 = some 255 := by
  refine ⟨?_, ?_, ?_, ?_, ?_, ?_, ?_⟩ <;> rfl

/-- C2 amended: the probe index never wraps — it moves forward only.
Provided some slot at index ≥ `hash & 0xFF` inside the (256+overflow)-sized
table stores the key or zero, every probe access stays within the table's
bounds and the lookup terminates there: a `found` index lies in
`[hash & 0xFF, length)` and a not-found stop happens at an in-bounds zero
slot.  Without such a slot the loop reads past the table's end. -/
theorem c2_linear_probe (tbl : List Circom_HashEntry) (h : Nat)
    (hstop : ∃ j, (h &&& 255) ≤ j ∧ j < tbl.length ∧
      (slotHash tbl j = some h ∨ slotHash tbl j = some 0)) :
    probeFrom tbl h (h &&& 255) ≠ ProbeResult.oob ∧
    (∀ k, probeFrom tbl h (h &&& 255) = ProbeResult.found k →
      (h &&& 255) ≤ k ∧ k < tbl.length) ∧
    (probeFrom tbl h (h &&& 255) = ProbeResult.notFound →
      ∃ k, (h &&& 255) ≤ k ∧ k < tbl.length ∧ slotHash tbl k = some 0) := by
  refine ⟨?_, ?_, ?_⟩
  · intro hoob
    obtain ⟨j, hj1, hj2, hj3⟩ := hstop
    obtain ⟨x, hx, hxh, hx0⟩ := probeFrom_oob_sound tbl h (h &&& 255) hoob j hj1 hj2
    rcases hj3 with hm | hz
    · rw [hm] at hx
      exact hxh (Option.some.inj hx).symm
    · rw [hz] at hx
      exact hx0 (Option.some.inj hx).symm
  · intro k hp
    have hf := (probeFrom_found_iff tbl h (h &&& 255) k).mp hp
    have hsl := hf.2.1
    simp only [slotHash] at hsl
    obtain ⟨e, hg, -⟩ := Option.map_eq_some'.mp hsl
    exact ⟨hf.1, (List.getElem?_eq_some.mp hg).1⟩
  · intro hp
    obtain ⟨hne, k, hk1, hk2, -⟩ := (probeFrom_notFound_iff tbl h (h &&& 255)).mp hp
    have hsl := hk2
    simp only [slotHash] at hsl
    obtain ⟨e, hg, -⟩ := Option.map_eq_some'.mp hsl
    exact ⟨k, hk1, (List.getElem?_eq_some.mp hg).1, hk2⟩

/-- Witness for the amended C2 at the one-slot table `tblW2`, key 256. -/
theorem c2_linear_probe_witness :
    probeFrom tblW2 256 (256 &&& 255) ≠ ProbeResult.oob ∧
    (∀ k, probeFrom tblW2 256 (256 &&& 255) = ProbeResult.found k →
      (256 &&& 255) ≤ k ∧ k < tblW2.length) ∧
    (probeFrom tblW2 256 (256 &&& 255) = ProbeResult.notFound →
      ∃ k, (256 &&& 255) ≤ k ∧ k < tblW2.length ∧ slotHash tblW2 k = some 0) :=
  c2_linear_probe tblW2 256 ⟨0, by decide, by decide, by decide⟩

/-! ### setSignal normal forms and the per-operation step analysis -/

theorem setSignal_release_eq (circ : Circom_Circuit) (cc c s : Nat) (v : Nat)
    (st : Circom_CalcWit) :
    setSignal false circ cc c s v st =
      if mapIsInputAt circ s then
        if pendingAt st c > 0 then
          if pendingAt st c - 1 = 0 then
            .ok ([c], ⟨st.signalValues.set s v, st.signalAssigned,
                  st.inputSignalsToTrigger.set c (pendingAt st c - 1)⟩)
          else
            .ok ([], ⟨st.signalValues.set s v, st.signalAssigned,
                  st.inputSignalsToTrigger.set c (pendingAt st c - 1)⟩)
        else .ok ([], ⟨st.signalValues.set s v, st.signalAssigned, st.inputSignalsToTrigger⟩)
      else .ok ([], ⟨st.signalValues.set s v, st.signalAssigned, st.inputSignalsToTrigger⟩) :=
  rfl

theorem setSignal_sanity_assigned_eq (circ : Circom_Circuit) (cc c s : Nat) (v : Nat)
    (st : Circom_CalcWit) (ha : assignedAt st s = true) :
    setSignal true circ cc c s v st = .error (.doubleAssignment s) := by
  simp [setSignal, ha]

theorem setSignal_sanity_eq (circ : Circom_Circuit) (cc c s : Nat) (v : Nat)
    (st : Circom_CalcWit) (ha : assignedAt st s = false) :
    setSignal true circ cc c s v st =
      if mapIsInputAt circ s then
        if pendingAt st c > 0 then
          if pendingAt st c - 1 = 0 then
            .ok ([c], ⟨st.signalValues.set s v, st.signalAssigned.set s true,
                  st.inputSignalsToTrigger.set c (pendingAt st c - 1)⟩)
          else
            .ok ([], ⟨st.signalValues.set s v, st.signalAssigned.set s true,
                  st.inputSignalsToTrigger.set c (pendingAt st c - 1)⟩)
        else .ok ([], ⟨st.signalValues.set s v, st.signalAssigned.set s true,
              st.inputSignalsToTrigger⟩)
      else .ok ([], ⟨st.signalValues.set s v, st.signalAssigned.set s true,
            st.inputSignalsToTrigger⟩) := by
  simp only [setSignal, Bool.true_and, ha, Bool.false_eq_true, if_false, if_true]
  rfl

/-- Either a `setOp` aborts (sanity-mode double assignment) leaving the state
unchanged, or it stores the value, sets the sanity bit in sanity mode, and
either leaves the counters untouched or decrements the owning component's
counter (possible only when the signal is an input and the counter was
positive). -/
theorem applyOp_setOp_cases (sanity : Bool) (circ : Circom_Circuit) (cc c s : Nat)
    (v : Nat) (st : Circom_CalcWit) :
    applyOp sanity circ st (Op.setOp cc c s v) = st ∨
    ∃ pend, applyOp sanity circ st (Op.setOp cc c s v) =
        ⟨st.signalValues.set s v,
         if sanity then st.signalAssigned.set s true else st.signalAssigned,
         pend⟩ ∧
      (pend = st.inputSignalsToTrigger ∨
       (pendingAt st c > 0 ∧ mapIsInputAt circ s = true ∧
        pend = st.inputSignalsToTrigger.set c (pendingAt st c - 1))) := by
  have hbody : ∀ (mask : List Bool),
      (match (if mapIsInputAt circ s then
          if pendingAt st c > 0 then
            if pendingAt st c - 1 = 0 then
              (Except.ok ([c], (⟨st.signalValues.set s v, mask,
                    st.inputSignalsToTrigger.set c (pendingAt st c - 1)⟩ : Circom_CalcWit))
                : Except SanityError (List Nat × Circom_CalcWit))
            else
              .ok ([], ⟨st.signalValues.set s v, mask,
                    st.inputSignalsToTrigger.set c (pendingAt st c - 1)⟩)
          else .ok ([], ⟨st.signalValues.set s v, mask, st.inputSignalsToTrigger⟩)
        else .ok ([], ⟨st.signalValues.set s v, mask, st.inputSignalsToTrigger⟩)) with
       | .ok r => r.2
       | .error _ => st) = ⟨st.signalValues.set s v, mask, st.inputSignalsToTrigger⟩ ∨
      ((match (if mapIsInputAt circ s then
          if pendingAt st c > 0 then
            if pendingAt st c - 1 = 0 then
              (Except.ok ([c], (⟨st.signalValues.set s v, mask,
                    st.inputSignalsToTrigger.set c (pendingAt st c - 1)⟩ : Circom_CalcWit))
                : Except SanityError (List Nat × Circom_CalcWit))
            else
              .ok ([], ⟨st.signalValues.set s v, mask,
                    st.inputSignalsToTrigger.set c (pendingAt st c - 1)⟩)
          else .ok ([], ⟨st.signalValues.set s v, mask, st.inputSignalsToTrigger⟩)
        else .ok ([], ⟨st.signalValues.set s v, mask, st.inputSignalsToTrigger⟩)) with
       | .ok r => r.2
       | .error _ => st) =
        ⟨st.signalValues.set s v, mask, st.inputSignalsToTrigger.set c (pendingAt st c - 1)⟩ ∧
       pendingAt st c > 0 ∧ mapIsInputAt circ s = true) := by
    intro mask
    by_cases hin : mapIsInputAt circ s = true
    · by_cases hpos : pendingAt st c > 0
      · by_cases hz : pendingAt st c - 1 = 0
        · right
          rw [if_pos hin, if_pos hpos, if_pos hz]
          exact ⟨rfl, hpos, hin⟩
        · right
          rw [if_pos hin, if_pos hpos, if_neg hz]
          exact ⟨rfl, hpos, hin⟩
      · left
        rw [if_pos hin, if_neg hpos]
    · left
      rw [if_neg hin]
  cases sanity with
  | false =>
    right
    have := hbody st.signalAssigned
    rcases this with h | ⟨h, hpos, hin⟩
    · refine ⟨st.inputSignalsToTrigger, ?_, Or.inl rfl⟩
      show (match setSignal false circ cc c s v st with
            | .ok r => r.2 | .error _ => st) = _
      rw [setSignal_release_eq]
      exact h
    · refine ⟨st.inputSignalsToTrigger.set c (pendingAt st c - 1), ?_, Or.inr ⟨hpos, hin, rfl⟩⟩
      show (match setSignal false circ cc c s v st with
            | .ok r => r.2 | .error _ => st) = _
      rw [setSignal_release_eq]
      exact h
  | true =>
    cases ha : assignedAt st s with
    | true =>
      left
      show (match setSignal true circ cc c s v st with
            | .ok r => r.2 | .error _ => st) = st
      rw [setSignal_sanity_assigned_eq circ cc c s v st ha]
    | false =>
      right
      have := hbody (st.signalAssigned.set s true)
      rcases this with h | ⟨h, hpos, hin⟩
      · refine ⟨st.inputSignalsToTrigger, ?_, Or.inl rfl⟩
        show (match setSignal true circ cc c s v st with
              | .ok r => r.2 | .error _ => st) = _
        rw [setSignal_sanity_eq circ cc c s v st ha]
        exact h
      · refine ⟨st.inputSignalsToTrigger.set c (pendingAt st c - 1), ?_, Or.inr ⟨hpos, hin, rfl⟩⟩
        show (match setSignal true circ cc c s v st with
              | .ok r => r.2 | .error _ => st) = _
        rw [setSignal_sanity_eq circ cc c s v st ha]
        exact h

/-- Effect of a single non-reset operation on one component's counter: it is
unchanged, or decremented by a `setSignal` on an input signal of that
component while positive, or set to `-1` by `finished` of that component. -/
theorem pending_step (sanity : Bool) (circ : Circom_Circuit) (c : Nat)
    (st : Circom_CalcWit) :
    ∀ op, op ≠ Op.resetOp →
      pendingAt (applyOp sanity circ st op) c = pendingAt st c ∨
      (∃ cc s v, op = Op.setOp cc c s v ∧ mapIsInputAt circ s = true ∧
        pendingAt st c > 0 ∧
        pendingAt (applyOp sanity circ st op) c = pendingAt st c - 1) ∨
      (op = Op.finOp c ∧ pendingAt (applyOp sanity circ st op) c = -1) := by
  intro op hop
  cases op with
  | resetOp => exact absurd rfl hop
  | getOp cc c2 s => left; rfl
  | joinOp => left; rfl
  | finOp c2 =>
    by_cases hcc : c2 = c
    · subst hcc
      by_cases hlt : c2 < st.inputSignalsToTrigger.length
      · right; right
        refine ⟨rfl, ?_⟩
        show (st.inputSignalsToTrigger.set c2 (-1)).getD c2 0 = -1
        exact getD_set_self _ _ _ _ hlt
      · left
        show (st.inputSignalsToTrigger.set c2 (-1)).getD c2 0 = st.inputSignalsToTrigger.getD c2 0
        rw [List.set_eq_of_length_le (by omega)]
    · left
      show (st.inputSignalsToTrigger.set c2 (-1)).getD c 0 = st.inputSignalsToTrigger.getD c 0
      exact getD_set_ne _ _ _ _ _ hcc
  | setOp cc c2 s v =>
    rcases applyOp_setOp_cases sanity circ cc c2 s v st with heq | ⟨pend, heq, hp⟩
    · left; rw [heq]
    · rcases hp with hpend | ⟨hpos, hin, hpend⟩
      · left
        rw [heq, hpend]
        rfl
      · by_cases hcc : c2 = c
        · subst hcc
          right; left
          refine ⟨cc, s, v, rfl, hin, hpos, ?_⟩
          rw [heq, hpend]
          show (st.inputSignalsToTrigger.set c2 (pendingAt st c2 - 1)).getD c2 0 = _
          have hlt : c2 < st.inputSignalsToTrigger.length := by
            apply getD_ne_default_lt st.inputSignalsToTrigger c2 (0 : Int)
            have : st.inputSignalsToTrigger.getD c2 0 > 0 := hpos
            omega
          exact getD_set_self _ _ _ _ hlt
        · left
          rw [heq, hpend]
          show (st.inputSignalsToTrigger.set c2 (pendingAt st c2 - 1)).getD c 0 = _
          exact getD_set_ne _ _ _ _ _ hcc

/-- Once a counter is `-1`, any reset-free trace of operations leaves it `-1`. -/
theorem pending_neg_one_persists (sanity : Bool) (circ : Circom_Circuit) (c : Nat) :
    ∀ ops st, (∀ op ∈ ops, op ≠ Op.resetOp) → pendingAt st c = -1 →
      pendingAt (applyOps sanity circ st ops) c = -1 := by
  intro ops
  induction ops with
  | nil => intro st _ h; exact h
  | cons o t ih =>
    intro st hmem h
    have ho : o ≠ Op.resetOp := hmem o (List.mem_cons_self o t)
    have h' : pendingAt (applyOp sanity circ st o) c = -1 := by
      rcases pending_step sanity circ c st o ho with h1 | ⟨cc, s, v, -, -, hpos, -⟩ | ⟨-, hfin⟩
      · rw [h1]; exact h
      · omega
      · exact hfin
    have : applyOps sanity circ st (o :: t) =
        applyOps sanity circ (applyOp sanity circ st o) t := rfl
    rw [this]
    exact ih (applyOp sanity circ st o) (fun op hm => hmem op (List.mem_cons_of_mem o hm)) h'

/-- C6: between resets, a component's counter moves only downward — each
change is either a decrement by a `setSignal` on one of its input signals
while the counter is positive, or the jump to `-1` performed by `finished`;
the counter reaches `-1` only through `finished`, and once `-1` it keeps that
value across any reset-free trace of operations. -/
theorem c6_pending_monotone (sanity : Bool) (circ : Circom_Circuit) (c : Nat)
    (st : Circom_CalcWit) :
    (∀ op, op ≠ Op.resetOp →
      (pendingAt (applyOp sanity circ st op) c = pendingAt st c ∨
       (∃ cc s v, op = Op.setOp cc c s v ∧ mapIsInputAt circ s = true ∧
         pendingAt st c > 0 ∧
         pendingAt (applyOp sanity circ st op) c = pendingAt st c - 1) ∨
       (op = Op.finOp c ∧ pendingAt (applyOp sanity circ st op) c = -1)) ∧
      (pendingAt (applyOp sanity circ st op) c = -1 →
        pendingAt st c = -1 ∨ op = Op.finOp c)) ∧
    (∀ ops, (∀ op ∈ ops, op ≠ Op.resetOp) → pendingAt st c = -1 →
      pendingAt (applyOps sanity circ st ops) c = -1) := by
  constructor
  · intro op hop
    refine ⟨pending_step sanity circ c st op hop, ?_⟩
    intro h'
    rcases pending_step sanity circ c st op hop with h1 | ⟨cc, s, v, -, -, hpos, hdec⟩ | ⟨hfin, -⟩
    · left; rw [← h1]; exact h'
    · exfalso
      rw [hdec] at h'
      omega
    · right; exact hfin
  · intro ops hmem h
    exact pending_neg_one_persists sanity circ c ops st hmem h

/-- Witness for C6: with component 0 already finished, a reset-free trace of
a `finished` call and a `setSignal` on its input leaves the counter at `-1`. -/
theorem c6_pending_monotone_witness :
    pendingAt (applyOps false circW7 stW8 [Op.finOp 0, Op.setOp 0 0 1 5]) 0 = -1 :=
  (c6_pending_monotone false circW7 0 stW8).2 [Op.finOp 0, Op.setOp 0 0 1 5]
    (by decide) (by decide)

/-! ### Claim C4: setSignal effects -/

/-- C4: a release-mode `setSignal(currentComponent, owningComponent, sIdx,
value)` stores the value into `signalValues[sIdx]`; the owning component's
counter is decremented by exactly one iff the signal's `mapIsInput` bit is set
and the counter was positive; the owning component is triggered exactly once
iff that decrement brings the counter to zero (i.e. the counter was `1`); and
no other component's counter changes. -/
theorem c4_setSignal_effects (circ : Circom_Circuit) (cc c s : Nat) (v : Nat)
    (st : Circom_CalcWit) (hs : s < st.signalValues.length) :
    ∃ evs st', setSignal false circ cc c s v st = .ok (evs, st') ∧
      st'.signalValues = st.signalValues.set s v ∧
      valueAt st' s = v ∧
      (mapIsInputAt circ s = true ∧ pendingAt st c > 0 →
        pendingAt st' c = pendingAt st c - 1) ∧
      (¬(mapIsInputAt circ s = true ∧ pendingAt st c > 0) →
        pendingAt st' c = pendingAt st c) ∧
      (evs = [c] ↔ mapIsInputAt circ s = true ∧ pendingAt st c = 1) ∧
      (evs = [c] ∨ evs = []) ∧
      (∀ j, j ≠ c → pendingAt st' j = pendingAt st j) := by
  rw [setSignal_release_eq]
  by_cases hin : mapIsInputAt circ s = true
  · rw [if_pos hin]
    by_cases hpos : pendingAt st c > 0
    · rw [if_pos hpos]
      have hlt : c < st.inputSignalsToTrigger.length := by
        apply getD_ne_default_lt st.inputSignalsToTrigger c (0 : Int)
        have hgt : st.inputSignalsToTrigger.getD c 0 > 0 := hpos
        omega
      by_cases hz : pendingAt st c - 1 = 0
      · rw [if_pos hz]
        refine ⟨[c], _, rfl, rfl, ?_, ?_, ?_, ?_, ?_, ?_⟩
        · show (st.signalValues.set s v).getD s 0 = v
          exact getD_set_self _ _ _ _ hs
        · intro _
          show (st.inputSignalsToTrigger.set c (pendingAt st c - 1)).getD c 0 = _
          exact getD_set_self _ _ _ _ hlt
        · intro hn
          exact absurd ⟨hin, hpos⟩ hn
        · exact ⟨fun _ => ⟨hin, by omega⟩, fun _ => rfl⟩
        · left; rfl
        · intro j hj
          show (st.inputSignalsToTrigger.set c (pendingAt st c - 1)).getD j 0 = _
          exact getD_set_ne _ _ _ _ _ (Ne.symm hj)
      · rw [if_neg hz]
        refine ⟨[], _, rfl, rfl, ?_, ?_, ?_, ?_, ?_, ?_⟩
        · show (st.signalValues.set s v).getD s 0 = v
          exact getD_set_self _ _ _ _ hs
        · intro _
          show (st.inputSignalsToTrigger.set c (pendingAt st c - 1)).getD c 0 = _
          exact getD_set_self _ _ _ _ hlt
        · intro hn
          exact absurd ⟨hin, hpos⟩ hn
        · constructor
          · intro hcon
            exact List.noConfusion hcon
          · rintro ⟨-, hp1⟩
            exact absurd (by omega : pendingAt st c - 1 = 0) hz
        · right; rfl
        · intro j hj
          show (st.inputSignalsToTrigger.set c (pendingAt st c - 1)).getD j 0 = _
          exact getD_set_ne _ _ _ _ _ (Ne.symm hj)
    · rw [if_neg hpos]
      refine ⟨[], _, rfl, rfl, ?_, ?_, ?_, ?_, ?_, ?_⟩
      · show (st.signalValues.set s v).getD s 0 = v
        exact getD_set_self _ _ _ _ hs
      · rintro ⟨-, hp⟩
        exact absurd hp hpos
      · intro _; rfl
      · constructor
        · intro hcon
          exact List.noConfusion hcon
        · rintro ⟨-, hp1⟩
          exact absurd (by omega : pendingAt st c > 0) hpos
      · right; rfl
      · intro j _; rfl
  · rw [if_neg hin]
    refine ⟨[], _, rfl, rfl, ?_, ?_, ?_, ?_, ?_, ?_⟩
    · show (st.signalValues.set s v).getD s 0 = v
      exact getD_set_self _ _ _ _ hs
    · rintro ⟨hi, -⟩
      exact absurd hi hin
    · intro _; rfl
    · constructor
      · intro hcon
        exact List.noConfusion hcon
      · rintro ⟨hi, -⟩
        exact absurd hi hin
    · right; rfl
    · intro j _; rfl

/-- Witness for C4: writing input signal 1 of `circTwoSig` in state `stW4`
(counter 1) stores the value, decrements the counter to 0 and triggers
component 0 exactly once. -/
theorem c4_setSignal_effects_witness :
    ∃ evs st', setSignal false circTwoSig 0 0 1 9 stW4 = .ok (evs, st') ∧
      st'.signalValues = stW4.signalValues.set 1 9 ∧
      valueAt st' 1 = 9 ∧
      (mapIsInputAt circTwoSig 1 = true ∧ pendingAt stW4 0 > 0 →
        pendingAt st' 0 = pendingAt stW4 0 - 1) ∧
      (¬(mapIsInputAt circTwoSig 1 = true ∧ pendingAt stW4 0 > 0) →
        pendingAt st' 0 = pendingAt stW4 0) ∧
      (evs = [0] ↔ mapIsInputAt circTwoSig 1 = true ∧ pendingAt stW4 0 = 1) ∧
      (evs = [0] ∨ evs = []) ∧
      (∀ j, j ≠ 0 → pendingAt st' j = pendingAt stW4 j) :=
  c4_setSignal_effects circTwoSig 0 0 1 9 stW4 (by decide)

/-! ### Claims C3 and C5: the one-signal invariant and reset -/

/-- One operation preserves `signalValues[0] = 1`, provided either sanity
mode is on (where signal 0 is marked assigned, so a write to it aborts) or
the operation is not a `setSignal` on index 0. -/
theorem value_one_inv_step (sanity : Bool) (circ : Circom_Circuit) (st : Circom_CalcWit)
    (op : Op) (hI1 : valueAt st 0 = 1) (hI2 : sanity = true → assignedAt st 0 = true)
    (hop : sanity = true ∨ ∀ cc c v, op ≠ Op.setOp cc c 0 v) :
    valueAt (applyOp sanity circ st op) 0 = 1 ∧
      (sanity = true → assignedAt (applyOp sanity circ st op) 0 = true) := by
  cases op with
  | getOp cc c s => exact ⟨hI1, hI2⟩
  | joinOp => exact ⟨hI1, hI2⟩
  | finOp c => exact ⟨hI1, hI2⟩
  | resetOp =>
    constructor
    · exact hI1
    · intro hsan
      subst hsan
      have h0 := hI2 rfl
      show (clearAssignedRange st.signalAssigned circ.components.length).getD 0 false = true
      unfold clearAssignedRange
      rw [foldl_set_getD_ne _ _ _ _ 0 (fun i hi => by have := mem_range'_lower _ _ i hi; omega)]
      exact h0
  | setOp cc c s v =>
    by_cases hs0 : s = 0
    · subst hs0
      rcases hop with hsan | hno
      · subst hsan
        have ha := hI2 rfl
        have heq : applyOp true circ st (Op.setOp cc c 0 v) = st := by
          show (match setSignal true circ cc c 0 v st with
                | .ok r => r.2 | .error _ => st) = st
          rw [setSignal_sanity_assigned_eq circ cc c 0 v st ha]
        rw [heq]
        exact ⟨hI1, hI2⟩
      · exact absurd rfl (hno cc c v)
    · rcases applyOp_setOp_cases sanity circ cc c s v st with heq | ⟨pend, heq, -⟩
      · rw [heq]; exact ⟨hI1, hI2⟩
      · rw [heq]
        constructor
        · show (st.signalValues.set s v).getD 0 0 = 1
          rw [getD_set_ne _ _ _ _ _ hs0]
          exact hI1
        · intro hsan
          subst hsan
          show ((if true = true then st.signalAssigned.set s true
                 else st.signalAssigned) : List Bool).getD 0 false = true
          rw [if_pos rfl, getD_set_ne _ _ _ _ _ hs0]
          exact hI2 rfl

/-- C3 counterexample: in release mode a `setSignal` call targeting the
reserved index 0 overwrites the one-signal — after `setSignal(0, 0, 0, 5)`
from the freshly constructed calculator of `circTwoSig`, `signalValues[0]`
is `5`, not `1`. -/
theorem c3_one_signal_counterexample :
    valueAt (applyOps false circTwoSig (initState false circTwoSig [false, false]).2
      [Op.setOp 0 0 0 5]) 0 = 5 ∧
    ¬ valueAt (applyOps false circTwoSig (initState false circTwoSig [false, false]).2
      [Op.setOp 0 0 0 5]) 0 = 1 := by
  exact ⟨rfl, by decide⟩

/-- C3 amended: from construction onward `signalValues[0] = 1` holds after
every trace of calculator operations, in sanity mode unconditionally (the
constructor marks signal 0 assigned, so any `setSignal` on index 0 dies with
a double-assignment failure before storing), and in release mode provided no
`setSignal` of the trace targets the reserved index 0. -/
theorem c3_one_signal_invariant (sanity : Bool) (circ : Circom_Circuit) (junk : List Bool)
    (ops : List Op) (hN : 1 ≤ circ.NSignals) (hj : junk.length = circ.NSignals)
    (hok : sanity = true ∨ ∀ op ∈ ops, ∀ cc c v, op ≠ Op.setOp cc c 0 v) :
    valueAt (applyOps sanity circ (initState sanity circ junk).2 ops) 0 = 1 := by
  have hstep : ∀ ops2 st2, valueAt st2 0 = 1 → (sanity = true → assignedAt st2 0 = true) →
      (sanity = true ∨ ∀ op ∈ ops2, ∀ cc c v, op ≠ Op.setOp cc c 0 v) →
      valueAt (applyOps sanity circ st2 ops2) 0 = 1 := by
    intro ops2
    induction ops2 with
    | nil => intro st2 h1 _ _; exact h1
    | cons o t ih =>
      intro st2 h1 h2 h3
      have hone : sanity = true ∨ ∀ cc c v, o ≠ Op.setOp cc c 0 v := by
        rcases h3 with h | h
        · left; exact h
        · right; intro cc c v; exact h o (List.mem_cons_self o t) cc c v
      have hrest : sanity = true ∨ ∀ op ∈ t, ∀ cc c v, op ≠ Op.setOp cc c 0 v := by
        rcases h3 with h | h
        · left; exact h
        · right; intro op hm; exact h op (List.mem_cons_of_mem o hm)
      have hs := value_one_inv_step sanity circ st2 o h1 h2 hone
      have heq : applyOps sanity circ st2 (o :: t) =
          applyOps sanity circ (applyOp sanity circ st2 o) t := rfl
      rw [heq]
      exact ih (applyOp sanity circ st2 o) hs.1 hs.2 hrest
  refine hstep ops (initState sanity circ junk).2 rfl ?_ hok
  intro hsan
  subst hsan
  show (clearAssignedRange (junk.set 0 true) circ.components.length).getD 0 false = true
  unfold clearAssignedRange
  rw [foldl_set_getD_ne _ _ _ _ 0 (fun i hi => by have := mem_range'_lower _ _ i hi; omega)]
  exact getD_set_self junk 0 true false (by omega)

/-- Witness for the amended C3 in sanity mode: a trace that even attempts a
write to index 0 leaves `signalValues[0] = 1`. -/
theorem c3_one_signal_invariant_witness :
    valueAt (applyOps true circTwoSig (initState true circTwoSig [false, false]).2
      [Op.setOp 0 0 0 9]) 0 = 1 :=
  c3_one_signal_invariant true circTwoSig [false, false] [Op.setOp 0 0 0 9]
    (by decide) (by decide) (Or.inl rfl)

/-- C5 (code bug): on `circC5` (4 signals, 2 components) `reset()` in sanity
mode clears the assigned bit of signal 1 only — the source loop
`for (i=1; i<NComponents; i++)` runs over the component count, leaving
signals 2 and 3 marked assigned, where the claim requires every signal index
except 0 to be cleared.  The counters are restored to each component's
`inputSignals`, no zero-input component fires here, and the signal values are
untouched. -/
theorem c5_reset_mask_bug :
    (reset true circC5 stC5).2.signalAssigned = [true, false, true, true] ∧
    assignedAt (reset true circC5 stC5).2 2 = true ∧
    assignedAt (reset true circC5 stC5).2 3 = true ∧
    (reset true circC5 stC5).2.inputSignalsToTrigger = [1, 2] ∧
    (reset true circC5 stC5).2.signalValues = stC5.signalValues ∧
    (reset true circC5 stC5).1 = [] := by
  exact ⟨rfl, rfl, rfl, rfl, rfl, rfl⟩

/-! ### Claims C7 and C8: blocking reads and join -/

/-- C7: `getSignal(currentComponent, producingComponent, sIdx)` enters its
wait loop exactly when the producing component's `newThread` flag is set, the
producer differs from the caller, and the producer's counter is not yet `-1`;
when the flag is set and the components differ, the call returns only once
`pending[producingComponent] = -1`; and the returned value is always the copy
of `signalValues[sIdx]` taken in the state where the wait has completed. -/
theorem c7_getSignal_blocking (circ : Circom_Circuit) (cc c s : Nat)
    (st : Circom_CalcWit) (v : Nat) :
    (getSignalWaits circ cc c st = true ↔
      (newThreadAt circ c = true ∧ cc ≠ c ∧ pendingAt st c ≠ -1)) ∧
    (GetSignalReturns circ cc c s st v ↔
      ((newThreadAt circ c = true ∧ cc ≠ c → pendingAt st c = -1) ∧ v = valueAt st s)) ∧
    getSignalValue false st s = .ok (valueAt st s) := by
  have hw : getSignalWaits circ cc c st = true ↔
      (newThreadAt circ c = true ∧ cc ≠ c ∧ pendingAt st c ≠ -1) := by
    unfold getSignalWaits
    by_cases h1 : newThreadAt circ c = true
    · by_cases h2 : cc = c
      · subst h2
        simp [h1]
      · simp [h1, h2, bne_iff_ne]
    · simp [h1]
  refine ⟨hw, ?_, rfl⟩
  unfold GetSignalReturns
  constructor
  · rintro ⟨hwf, hv⟩
    refine ⟨?_, hv⟩
    rintro ⟨h1, h2⟩
    by_contra hne
    have := hw.mpr ⟨h1, h2, hne⟩
    rw [hwf] at this
    exact Bool.false_ne_true this
  · rintro ⟨himp, hv⟩
    refine ⟨?_, hv⟩
    cases hgw : getSignalWaits circ cc c st with
    | false => rfl
    | true =>
      obtain ⟨h1, h2, h3⟩ := hw.mp hgw
      exact absurd (himp ⟨h1, h2⟩) h3

/-- Witness for C7: in `circW7`/`stW7` a read of component 0's output from
another component (index 1) waits while the counter is still `1`. -/
theorem c7_getSignal_blocking_witness :
    getSignalWaits circW7 1 0 stW7 = true :=
  ((c7_getSignal_blocking circW7 1 0 1 stW7 3).1).mpr (by decide)

theorem joinScan_none_iff (st : Circom_CalcWit) :
    ∀ n i, joinScan st i n = none ↔ ∀ j, i ≤ j → j < i + n → pendingAt st j = -1 := by
  intro n
  induction n with
  | zero =>
    intro i
    constructor
    · intro _ j hj1 hj2
      omega
    · intro _
      rfl
  | succ m ih =>
    intro i
    unfold joinScan
    by_cases hi : pendingAt st i = -1
    · rw [if_pos hi, ih (i + 1)]
      constructor
      · intro hall j hj1 hj2
        rcases Nat.eq_or_lt_of_le hj1 with rfl | hlt
        · exact hi
        · exact hall j hlt (by omega)
      · intro hall j hj1 hj2
        exact hall j (by omega) (by omega)
    · rw [if_neg hi]
      constructor
      · intro hsome
        exact absurd hsome (by simp)
      · intro hall
        exact absurd (hall i (Nat.le_refl i) (by omega)) hi

theorem joinScan_some_sound (st : Circom_CalcWit) :
    ∀ n i k, joinScan st i n = some k →
      i ≤ k ∧ k < i + n ∧ pendingAt st k ≠ -1 ∧
        ∀ j, i ≤ j → j < k → pendingAt st j = -1 := by
  intro n
  induction n with
  | zero =>
    intro i k hsc
    simp [joinScan] at hsc
  | succ m ih =>
    intro i k hsc
    unfold joinScan at hsc
    by_cases hi : pendingAt st i = -1
    · rw [if_pos hi] at hsc
      obtain ⟨h1, h2, h3, h4⟩ := ih (i + 1) k hsc
      refine ⟨by omega, by omega, h3, ?_⟩
      intro j hj1 hj2
      rcases Nat.eq_or_lt_of_le hj1 with rfl | hlt
      · exact hi
      · exact h4 j hlt hj2
    · rw [if_neg hi] at hsc
      have hik : i = k := Option.some.inj hsc
      subst hik
      exact ⟨Nat.le_refl i, by omega, hi, fun j hj1 hj2 => by omega⟩

/-- C8: `join()` scans the components in increasing index order and can
return exactly when every component's counter is `-1`; when it is blocked,
it is blocked on the least component index whose counter is not `-1` (all
smaller indices are already at `-1`); and `join` itself modifies no
calculator state. -/
theorem c8_join_barrier (circ : Circom_Circuit) (st : Circom_CalcWit) :
    (joinCanReturn circ st ↔
      ∀ c, c < circ.components.length → pendingAt st c = -1) ∧
    (∀ i, joinBlockedAt circ st = some i →
      i < circ.components.length ∧ pendingAt st i ≠ -1 ∧
        ∀ j, j < i → pendingAt st j = -1) ∧
    (∀ sanity, applyOp sanity circ st Op.joinOp = st) := by
  refine ⟨?_, ?_, fun _ => rfl⟩
  · unfold joinCanReturn joinBlockedAt
    rw [joinScan_none_iff st circ.components.length 0]
    constructor
    · intro hall c hc
      exact hall c (by omega) (by omega)
    · intro hall j hj1 hj2
      exact hall j (by omega)
  · intro i hsome
    obtain ⟨h1, h2, h3, h4⟩ := joinScan_some_sound st circ.components.length 0 i hsome
    exact ⟨by omega, h3, fun j hj => h4 j (by omega) hj⟩

/-- Witness for C8: with the single component of `circW7` finished in
`stW8`, `join()` can return. -/
theorem c8_join_barrier_witness :
    joinCanReturn circW7 stW8 :=
  ((c8_join_barrier circW7 stW8).1).mpr (by decide)

/-! ### Claims C9 and C10: construction and finished -/

/-- C9: the constructor initializes every signal index in `[1, NSignals)` to
the field value 0, so a release-mode `getSignal` on a never-assigned signal
of the fresh calculator returns 0 (no error, no indeterminate value). -/
theorem c9_signals_init_zero (circ : Circom_Circuit) (junk : List Bool) (s : Nat)
    (h1 : 1 ≤ s) (h2 : s < circ.NSignals) :
    ((initState false circ junk).2.signalValues)[s]? = some 0 ∧
    valueAt (initState false circ junk).2 s = 0 ∧
    getSignalValue false (initState false circ junk).2 s = .ok 0 := by
  have hval : (initState false circ junk).2.signalValues =
      1 :: List.replicate (circ.NSignals - 1) 0 := rfl
  have hg : ((initState false circ junk).2.signalValues)[s]? = some 0 := by
    rw [hval]
    cases s with
    | zero => omega
    | succ m =>
      simp only [List.getElem?_cons_succ]
      exact get?_replicate_of_lt 0 (circ.NSignals - 1) m (by omega)
  have hvd : valueAt (initState false circ junk).2 s = 0 := by
    unfold valueAt
    rw [List.getD_eq_getElem?_getD, hg]
    rfl
  refine ⟨hg, hvd, ?_⟩
  unfold getSignalValue
  rw [if_neg (by simp), hvd]

/-- Witness for C9 at `circTwoSig`, signal 1. -/
theorem c9_signals_init_zero_witness :
    ((initState false circTwoSig [false, false]).2.signalValues)[1]? = some 0 ∧
    valueAt (initState false circTwoSig [false, false]).2 1 = 0 ∧
    getSignalValue false (initState false circTwoSig [false, false]).2 1 = .ok 0 :=
  c9_signals_init_zero circTwoSig [false, false] 1 (by decide) (by decide)

/-- C10: `finished(cIdx)` stores `-1` into the component's counter
unconditionally — no precondition on the previous counter value or on the
component having run — and it changes no other counter, no signal value and
no sanity bit. -/
theorem c10_finished_unconditional (st : Circom_CalcWit) (c : Nat)
    (hc : c < st.inputSignalsToTrigger.length) :
    pendingAt (finished st c) c = -1 ∧
    (∀ j, j ≠ c → pendingAt (finished st c) j = pendingAt st j) ∧
    (finished st c).signalValues = st.signalValues ∧
    (finished st c).signalAssigned = st.signalAssigned := by
  refine ⟨?_, ?_, rfl, rfl⟩
  · show (st.inputSignalsToTrigger.set c (-1)).getD c 0 = -1
    exact getD_set_self _ _ _ _ hc
  · intro j hj
    show (st.inputSignalsToTrigger.set c (-1)).getD j 0 = st.inputSignalsToTrigger.getD j 0
    exact getD_set_ne _ _ _ _ _ (Ne.symm hj)

/-- Witness for C10 on `stW10`, whose component 0 still has a pending input
and was never run. -/
theorem c10_finished_unconditional_witness :
    pendingAt (finished stW10 0) 0 = -1 ∧
    (∀ j, j ≠ 0 → pendingAt (finished stW10 0) j = pendingAt stW10 j) ∧
    (finished stW10 0).signalValues = stW10.signalValues ∧
    (finished stW10 0).signalAssigned = stW10.signalAssigned :=
  c10_finished_unconditional stW10 0 (by decide)
